import Mathlib

/-!
Shallow embedding of the `rxd` hex-dump formatter (`src/lib.rs`).

Rust strings are modelled as `List Char`; bytes as `Nat` (values `< 256`
where the source type is `u8`); the byte source of `format_contents` is
modelled two ways, both transcribed from the same loop:

* an in-memory cursor (`List Nat`): each `read` call fills the buffer with
  `min line_width remaining` bytes — the semantics of `std::io::Cursor`;
* a script of read results (`List ReadResult`) for the error-path claims,
  where each element is the outcome of one `Read::read` call.

Recursions that a witness must evaluate are written with an explicit fuel
argument (structural, so the kernel can reduce them); the top-level
wrappers supply fuel that provably never runs out.
-/

/-- Configuration record of `Dumper` (`src/lib.rs`, lines 3-9).  The `reader`
field is the byte source; it is passed separately to the functions below. -/
structure Dumper where
  control_pictures : Bool
  line_count : Option Nat
  line_width : Nat
  byte_group_length : Nat
deriving DecidableEq, Repr

/-- `Dumper::new` (defaults): `control_pictures = false`, `line_count = None`,
`line_width = 0x10`, `byte_group_length = 1`. -/
def Dumper.new : Dumper :=
  { control_pictures := false, line_count := none, line_width := 0x10, byte_group_length := 1 }

/-- `Dumper::control_pictures` builder method. -/
def Dumper.set_control_pictures (d : Dumper) (control_pictures : Bool) : Dumper :=
  { d with control_pictures := control_pictures }

/-- `Dumper::line_count` builder method. -/
def Dumper.set_line_count (d : Dumper) (line_count : Option Nat) : Dumper :=
  { d with line_count := line_count }

/-- `Dumper::line_width` builder method.  The Rust code panics on an
out-of-range value; the panic is modelled as `Except.error` carrying the
panic message. -/
def Dumper.set_line_width (d : Dumper) (line_width : Nat) : Except String Dumper :=
  if line_width = 0 ∨ line_width > 256 then
    Except.error "line width must be in the range 1-256"
  else
    Except.ok { d with line_width := line_width }

/-- `Dumper::byte_group_length` builder method, with the panic modelled as
`Except.error` as above. -/
def Dumper.set_byte_group_length (d : Dumper) (byte_group_length : Nat) : Except String Dumper :=
  if byte_group_length = 0 ∨ byte_group_length > 256 then
    Except.error "byte group length must be in the range 1-256"
  else
    Except.ok { d with byte_group_length := byte_group_length }

/-- `Dumper::get_line_hex_pad_length` (lines 56-59). -/
def get_line_hex_pad_length (d : Dumper) : Nat :=
  let group_characters := 2 * d.byte_group_length + 1
  (group_characters * d.line_width - 1) / d.byte_group_length

/-- Rendering of `format!("{byte:02x}")` for a `u8`: two lowercase hex
digits (`Nat.digitChar` yields `'a'`-`'f'` for 10-15, as Rust `{:x}` does). -/
def byte_hex (b : Nat) : List Char :=
  [Nat.digitChar (b / 16), Nat.digitChar (b % 16)]

/-- `char::from_u32`: `some` exactly on valid Unicode scalar values. -/
def char_from_u32 (n : Nat) : Option Char :=
  if Nat.isValidChar n then some (Char.ofNat n) else none

/-- Per-byte ASCII-field mapping, transcribed from the `match` in
`Dumper::format_line` (lines 76-83).  The `.unwrap()` on the control-picture
conversion is modelled with `Option.getD`; the default is unreachable
(proven below: `b + 0x2400` is a valid scalar for `b < 0x20`). -/
def byte_ascii (d : Dumper) (b : Nat) : Char :=
  if b < 0x20 ∧ d.control_pictures = true then (char_from_u32 (b + 0x2400)).getD '.'
  else if b < 0x20 then '.'
  else if b < 0x7f then Char.ofNat b
  else '.'

/-- Modelled from the spec: the per-byte character mapping as §4.3 words it
(byte < 0x20 and mode on → glyph at codepoint byte + 0x2400; byte < 0x20 and
mode off → `.`; 0x20 ≤ byte < 0x7F → the ASCII character; byte ≥ 0x7F → `.`).
Compared against `byte_ascii`, which is transcribed from the code. -/
def spec_ascii_char (cp : Bool) (b : Nat) : Char :=
  if b < 0x20 then (if cp then Char.ofNat (b + 0x2400) else '.')
  else if b < 0x7f then Char.ofNat b
  else '.'

/-- Lowercase hexadecimal digit string of `n`, most significant digit first;
the digits of `format!("{:x}")`.  `fuel` bounds the recursion depth (one unit
per digit); `to_hex` supplies `n` itself, which is always enough. -/
def to_hex_go : Nat → Nat → List Char
  | 0, n => [Nat.digitChar (n % 16)]
  | fuel + 1, n =>
    if n < 16 then [Nat.digitChar n]
    else to_hex_go fuel (n / 16) ++ [Nat.digitChar (n % 16)]

/-- Lowercase hexadecimal rendering of `n` with no padding. -/
def to_hex (n : Nat) : List Char := to_hex_go n n

/-- Rendering of `format!("{chunk_offset:08x}")`: lowercase hex, zero-padded
on the left to a MINIMUM width of 8 (wider values are not truncated). -/
def format_offset (n : Nat) : List Char :=
  List.replicate (8 - (to_hex n).length) '0' ++ to_hex n

/-- Rendering of `format!("{s:<width$}")`: left-justified, space-padded on
the right to a minimum width. -/
def pad_right (width : Nat) (s : List Char) : List Char :=
  s ++ List.replicate (width - s.length) ' '

/-- `[T]::join(sep)` over a list of strings. -/
def join_sep (sep : List Char) : List (List Char) → List Char
  | [] => []
  | [s] => s
  | s :: rest => s ++ sep ++ join_sep sep rest

/-- `slice::chunks(g)`: split into runs of `g` consecutive bytes, the last
run possibly shorter.  `fuel` bounds recursion depth; `byte_chunks` supplies
the list length, which is always enough for `g ≥ 1`. -/
def byte_chunks_go (g : Nat) : Nat → List Nat → List (List Nat)
  | 0, _ => []
  | _, [] => []
  | fuel + 1, a :: rest => (a :: rest.take (g - 1)) :: byte_chunks_go g fuel (rest.drop (g - 1))

/-- `line_bytes.chunks(byte_group_length)` as used in `format_line`. -/
def byte_chunks (g : Nat) (l : List Nat) : List (List Nat) :=
  byte_chunks_go g l.length l

/-- Hex rendering of one byte group: per-byte `{:02x}` joined with `""`. -/
def group_hex (c : List Nat) : List Char :=
  (c.map byte_hex).flatten

/-- The `line_hex` local of `format_line` (lines 62-72): groups joined by
single spaces. -/
def line_hex (d : Dumper) (line_bytes : List Nat) : List Char :=
  join_sep [' '] ((byte_chunks d.byte_group_length line_bytes).map group_hex)

/-- Hex column of a data line: `line_hex` left-justified in a field of
`get_line_hex_pad_length` characters (`{line_hex:<pad_length$}`). -/
def line_hex_field (d : Dumper) (line_bytes : List Nat) : List Char :=
  pad_right (get_line_hex_pad_length d) (line_hex d line_bytes)

/-- The `line_ascii` local of `format_line` (lines 74-84). -/
def line_ascii (d : Dumper) (line_bytes : List Nat) : List Char :=
  line_bytes.map (byte_ascii d)

/-- `Dumper::format_line` (lines 61-89):
`format!("{chunk_offset:08x} | {line_hex:<pad_length$} | {line_ascii}")`. -/
def format_line (d : Dumper) (chunk_offset : Nat) (line_bytes : List Nat) : List Char :=
  format_offset chunk_offset ++ [' ', '|', ' '] ++ line_hex_field d line_bytes
    ++ [' ', '|', ' '] ++ line_ascii d line_bytes

/-- Cap test of the read loop (lines 101-105): with a `line_count` set,
`chunk_offset >= line_count * self.line_width` stops the loop. -/
def cap_reached (d : Dumper) (chunk_offset : Nat) : Bool :=
  match d.line_count with
  | some line_count => line_count * d.line_width ≤ chunk_offset
  | none => false

/-- Loop body of `Dumper::format_contents` (lines 95-109) over an in-memory
cursor: `src` is the unread remainder of the source, so `self.reader.read`
returns `src.take d.line_width` (it fills at most `line_width` bytes).  The
order of the two stopping tests matches the source: the end-of-stream test
on the read length comes first, the line-count cap second — both run AFTER
the read.  `fuel` bounds the recursion depth (structural so the kernel can
evaluate it); `format_contents` supplies `src.length + 1`, which never runs
out because each iteration consumes at least one byte. -/
def format_contents_go (d : Dumper) : Nat → Nat → List Nat → List (List Char)
  | 0, _, _ => []
  | fuel + 1, chunk_offset, src =>
    if (src.take d.line_width).length = 0 then []
    else if cap_reached d chunk_offset then []
    else format_line d chunk_offset (src.take d.line_width)
      :: format_contents_go d fuel (chunk_offset + d.line_width) (src.drop d.line_width)

/-- `Dumper::format_contents` over an in-memory cursor holding `src`. -/
def format_contents (d : Dumper) (src : List Nat) : List (List Char) :=
  format_contents_go d (src.length + 1) 0 src

/-- The same loop recording, instead of the formatted string, the pair
(chunk offset, chunk bytes) each emitted line is formatted from. -/
def chunks_go (d : Dumper) : Nat → Nat → List Nat → List (Nat × List Nat)
  | 0, _, _ => []
  | fuel + 1, chunk_offset, src =>
    if (src.take d.line_width).length = 0 then []
    else if cap_reached d chunk_offset then []
    else (chunk_offset, src.take d.line_width)
      :: chunks_go d fuel (chunk_offset + d.line_width) (src.drop d.line_width)

/-- Chunks the read loop of `format_contents` emits lines for. -/
def chunks (d : Dumper) (src : List Nat) : List (Nat × List Nat) :=
  chunks_go d (src.length + 1) 0 src

/-- The same loop recording the stream offset at which every `read` call is
issued: `consumed` is the number of bytes the cursor has already handed out,
i.e. the position of the first byte the next read requests.  An offset is
recorded BEFORE the end-of-stream and cap tests, exactly as the source
issues the read before either test. -/
def read_offsets_go (d : Dumper) : Nat → Nat → Nat → List Nat → List Nat
  | 0, _, _, _ => []
  | fuel + 1, chunk_offset, consumed, src =>
    consumed ::
      (if (src.take d.line_width).length = 0 then []
       else if cap_reached d chunk_offset then []
       else read_offsets_go d fuel (chunk_offset + d.line_width)
         (consumed + (src.take d.line_width).length) (src.drop d.line_width))

/-- Stream offsets of all read requests `format_contents` issues on an
in-memory cursor holding `src`. -/
def read_offsets (d : Dumper) (src : List Nat) : List Nat :=
  read_offsets_go d (src.length + 1) 0 0 src

/-- Outcome of one `Read::read` call, for the error-path model of the loop:
`bytes b` is `Ok` with `b` the bytes placed in the buffer, `fail` is `Err`. -/
inductive ReadResult where
  | bytes : List Nat → ReadResult
  | fail : ReadResult
deriving DecidableEq, Repr

/-- `Dumper::format_contents` over a script of read results.  The
`.unwrap()` on line 96 panics on `Err`, which aborts `format_contents`
before it returns anything: the panic is modelled as `Except.error`, and an
error anywhere discards every line formatted earlier (the `Vec` of lines is
local to the aborted call).  An exhausted script behaves as end-of-stream. -/
def format_contents_r (d : Dumper) : Nat → List ReadResult → Except Unit (List (List Char))
  | _, [] => Except.ok []
  | _, ReadResult.fail :: _ => Except.error ()
  | chunk_offset, ReadResult.bytes b :: rest =>
    if (b.take d.line_width).length = 0 then Except.ok []
    else if cap_reached d chunk_offset then Except.ok []
    else
      match format_contents_r d (chunk_offset + d.line_width) rest with
      | Except.error e => Except.error e
      | Except.ok lines =>
        Except.ok (format_line d chunk_offset (b.take d.line_width) :: lines)

/-- The `byte_offsets` legend of `Dumper::dump` (lines 116-120):
`(0..line_width).step_by(byte_group_length)`, each rendered `{i:02x}`,
joined by `" ".repeat(byte_group_length * 2 - 1)`.  `range_step_go` models
`step_by` with fuel (one unit per element; `line_width` units suffice for a
positive step). -/
def range_step_go (g w : Nat) : Nat → Nat → List Nat
  | 0, _ => []
  | fuel + 1, i => if i < w then i :: range_step_go g w fuel (i + g) else []

/-- The iterator `(0..w).step_by(g)` as a list. -/
def range_step (g w : Nat) : List Nat :=
  range_step_go g w w 0

/-- The `byte_offsets` string of `Dumper::dump`. -/
def byte_offsets (d : Dumper) : List Char :=
  join_sep (List.replicate (d.byte_group_length * 2 - 1) ' ')
    ((range_step d.byte_group_length d.line_width).map byte_hex)

/-- First header line of `Dumper::dump` (lines 124-128):
`format!("         | {:<hex_pad_length$} | {}", byte_offsets, " ".repeat(line_width))`. -/
def byte_offsets_line (d : Dumper) : List Char :=
  List.replicate 9 ' ' ++ ['|', ' '] ++ pad_right (get_line_hex_pad_length d) (byte_offsets d)
    ++ [' ', '|', ' '] ++ List.replicate d.line_width ' '

/-- Second header line of `Dumper::dump` (lines 130-134):
`format!("---------+-{}-+-{}", "-".repeat(hex_pad_length), "-".repeat(line_width))`. -/
def separator_line (d : Dumper) : List Char :=
  List.replicate 9 '-' ++ ['+', '-'] ++ List.replicate (get_line_hex_pad_length d) '-'
    ++ ['-', '+', '-'] ++ List.replicate d.line_width '-'

/-- `Dumper::dump` (lines 115-141): the two header lines followed by
`format_contents`, in the order they are printed. -/
def dump (d : Dumper) (src : List Nat) : List (List Char) :=
  byte_offsets_line d :: separator_line d :: format_contents d src

example : line_hex_field Dumper.new [0x4c, 0x6f] =
    ('4' :: 'c' :: ' ' :: '6' :: 'f' :: List.replicate 42 ' ') := by decide

example : format_offset 0x10 = ['0', '0', '0', '0', '0', '0', '1', '0'] := by decide

/-! Helper lemmas for the read loop. -/

/-- With a line-count cap `N` set, every read the loop issues starts at a
stream offset of at most `N * line_width`: the loop stops at the latest
right after the read at `N * line_width` (which it still performs). -/
lemma read_offsets_go_le (d : Dumper) (N : Nat) (hlc : d.line_count = some N) :
    ∀ (fuel k consumed : Nat) (src : List Nat),
      consumed ≤ k * d.line_width → k * d.line_width ≤ N * d.line_width →
      ∀ r ∈ read_offsets_go d fuel (k * d.line_width) consumed src,
        r ≤ N * d.line_width := by
  intro fuel
  induction fuel with
  | zero => intro k consumed src _ _ r hr; simp [read_offsets_go] at hr
  | succ f ih =>
    intro k consumed src hck hkN r hr
    simp only [read_offsets_go, List.mem_cons] at hr
    rcases hr with rfl | hr
    · omega
    · by_cases hl : (src.take d.line_width).length = 0
      · simp [hl] at hr
      · rw [if_neg hl] at hr
        by_cases hcap : cap_reached d (k * d.line_width) = true
        · simp [hcap] at hr
        · rw [if_neg hcap] at hr
          simp only [cap_reached, hlc, decide_eq_true_eq] at hcap
          have hkN' : k < N := by
            by_contra hge
            push_neg at hge
            exact hcap (Nat.mul_le_mul_right d.line_width hge)
          have hmul : k * d.line_width + d.line_width = (k + 1) * d.line_width :=
            (Nat.succ_mul k d.line_width).symm
          rw [hmul] at hr
          refine ih (k + 1) (consumed + (src.take d.line_width).length)
            (src.drop d.line_width) ?_ ?_ r hr
          · have htk : (src.take d.line_width).length ≤ d.line_width := by
              simp only [List.length_take]
              omega
            omega
          · exact Nat.mul_le_mul_right d.line_width (by omega)

/-- The `i`-th entry the chunk-recording loop emits carries offset
`off + i * line_width` and the corresponding slice of the source. -/
lemma chunks_go_get? (d : Dumper) :
    ∀ (fuel off : Nat) (src : List Nat) (i : Nat) (p : Nat × List Nat),
      (chunks_go d fuel off src).get? i = some p →
      p.1 = off + i * d.line_width ∧
      p.2 = (src.drop (i * d.line_width)).take d.line_width := by
  intro fuel
  induction fuel with
  | zero => intro off src i p hp; simp [chunks_go] at hp
  | succ f ih =>
    intro off src i p hp
    simp only [chunks_go] at hp
    by_cases hl : (src.take d.line_width).length = 0
    · simp [hl] at hp
    · rw [if_neg hl] at hp
      by_cases hcap : cap_reached d off = true
      · simp [hcap] at hp
      · rw [if_neg hcap] at hp
        cases i with
        | zero =>
          simp only [List.get?_cons_zero, Option.some_inj] at hp
          subst hp
          constructor
          · simp
          · simp
        | succ j =>
          simp only [List.get?_cons_succ] at hp
          obtain ⟨h1, h2⟩ := ih (off + d.line_width) (src.drop d.line_width) j p hp
          constructor
          · rw [h1, Nat.succ_mul]
            omega
          · rw [h2, List.drop_drop]
            congr 1
            rw [Nat.succ_mul]
            ring_nf

/-- Every chunk the loop emits, except possibly the last, holds exactly
`line_width` bytes. -/
lemma chunks_go_full (d : Dumper) :
    ∀ (fuel off : Nat) (src : List Nat) (i : Nat) (p : Nat × List Nat),
      i + 1 < (chunks_go d fuel off src).length →
      (chunks_go d fuel off src).get? i = some p →
      p.2.length = d.line_width := by
  intro fuel
  induction fuel with
  | zero => intro off src i p h _; simp [chunks_go] at h
  | succ f ih =>
    intro off src i p hlen hp
    simp only [chunks_go] at hlen hp
    by_cases hl : (src.take d.line_width).length = 0
    · simp [hl] at hlen
    · rw [if_neg hl] at hlen hp
      by_cases hcap : cap_reached d off = true
      · simp [hcap] at hlen
      · rw [if_neg hcap] at hlen hp
        cases i with
        | zero =>
          have hne : chunks_go d f (off + d.line_width) (src.drop d.line_width) ≠ [] := by
            intro hemp
            rw [hemp] at hlen
            simp at hlen
          have hlong : d.line_width < src.length := by
            cases f with
            | zero => simp [chunks_go] at hne
            | succ f' =>
              by_contra hshort
              push_neg at hshort
              have hdropnil : src.drop d.line_width = [] := by
                apply List.eq_nil_of_length_eq_zero
                simp only [List.length_drop]
                omega
              exact hne (by simp [chunks_go, hdropnil])
          simp only [List.get?_cons_zero, Option.some_inj] at hp
          subst hp
          simp only [List.length_take]
          omega
        | succ j =>
          simp only [List.get?_cons_succ, List.length_cons] at hp hlen
          exact ih (off + d.line_width) (src.drop d.line_width) j p (by omega) hp

/-- The read loop emits exactly one formatted line per chunk, in order. -/
lemma format_contents_go_eq_map (d : Dumper) :
    ∀ (fuel off : Nat) (src : List Nat),
      format_contents_go d fuel off src =
        (chunks_go d fuel off src).map (fun p => format_line d p.1 p.2) := by
  intro fuel
  induction fuel with
  | zero => intro off src; simp [format_contents_go, chunks_go]
  | succ f ih =>
    intro off src
    simp only [format_contents_go, chunks_go]
    by_cases hl : (src.take d.line_width).length = 0
    · simp [hl]
    · rw [if_neg hl, if_neg hl]
      by_cases hcap : cap_reached d off = true
      · simp [hcap]
      · rw [if_neg hcap, if_neg hcap]
        simp [ih]

/-- A zero line-count cap stops the loop before any line is formatted. -/
lemma format_contents_zero_cap (d : Dumper) (hlc : d.line_count = some 0)
    (src : List Nat) : format_contents d src = [] := by
  unfold format_contents
  simp only [format_contents_go]
  by_cases hl : (src.take d.line_width).length = 0
  · simp [hl]
  · have hcap : cap_reached d 0 = true := by simp [cap_reached, hlc]
    simp [hl, hcap]

/-- With a line-count cap `N`, the loop emits at most `N - k` more lines
once `chunk_offset` has reached `k * line_width`. -/
lemma format_contents_go_length_le (d : Dumper) (N : Nat)
    (hlc : d.line_count = some N) :
    ∀ (fuel k : Nat) (src : List Nat),
      (format_contents_go d fuel (k * d.line_width) src).length ≤ N - k := by
  intro fuel
  induction fuel with
  | zero => intro k src; simp [format_contents_go]
  | succ f ih =>
    intro k src
    simp only [format_contents_go]
    by_cases hl : (src.take d.line_width).length = 0
    · simp [hl]
    · rw [if_neg hl]
      by_cases hcap : cap_reached d (k * d.line_width) = true
      · simp [hcap]
      · rw [if_neg hcap]
        simp only [cap_reached, hlc, decide_eq_true_eq] at hcap
        have hkN : k < N := by
          by_contra hge
          push_neg at hge
          exact hcap (Nat.mul_le_mul_right d.line_width hge)
        have hrec := ih (k + 1) (src.drop d.line_width)
        rw [Nat.succ_mul] at hrec
        simp only [List.length_cons]
        omega

/-- With a line-count cap `N` and a source strictly longer than
`N * line_width` bytes, the loop emits exactly `N` lines. -/
lemma format_contents_go_length_eq (d : Dumper) (N : Nat)
    (hlc : d.line_count = some N) (hw : 1 ≤ d.line_width) :
    ∀ (fuel k : Nat) (src : List Nat), k ≤ N → src.length < fuel →
      (N - k) * d.line_width < src.length →
      (format_contents_go d fuel (k * d.line_width) src).length = N - k := by
  intro fuel
  induction fuel with
  | zero => intro k src _ hfuel _; omega
  | succ f ih =>
    intro k src hkN hfuel hlong
    simp only [format_contents_go]
    have hl : ¬ (src.take d.line_width).length = 0 := by
      simp only [List.length_take]
      omega
    rw [if_neg hl]
    by_cases hk : k = N
    · subst hk
      have hcap : cap_reached d (k * d.line_width) = true := by
        simp [cap_reached, hlc]
      simp [hcap]
    · have hlt : k * d.line_width < N * d.line_width :=
        (Nat.mul_lt_mul_right (by omega)).2 (by omega)
      have hcapf : ¬ cap_reached d (k * d.line_width) = true := by
        simp only [cap_reached, hlc, decide_eq_true_eq]
        omega
      rw [if_neg hcapf]
      have hexp : (N - k) * d.line_width =
          (N - (k + 1)) * d.line_width + d.line_width := by
        have h' : N - k = (N - (k + 1)) + 1 := by omega
        rw [h', Nat.succ_mul]
      have hrec := ih (k + 1) (src.drop d.line_width) (by omega)
        (by simp only [List.length_drop]; omega)
        (by simp only [List.length_drop]; omega)
      rw [Nat.succ_mul] at hrec
      simp only [List.length_cons]
      rw [hrec]
      omega

/-! Helper lemmas. -/

/-- A control byte shifted into the Control Pictures block is a valid
Unicode scalar value. -/
lemma control_picture_valid (b : Nat) (h : b < 0x20) : Nat.isValidChar (b + 0x2400) :=
  Or.inl (by omega)

/-- `to_hex_go` emits at most `k` digits for inputs below `16 ^ k`. -/
lemma to_hex_go_length_le :
    ∀ (fuel k n : Nat), 1 ≤ k → n < 16 ^ k → (to_hex_go fuel n).length ≤ k := by
  intro fuel
  induction fuel with
  | zero => intro k n hk _; simpa [to_hex_go] using hk
  | succ f ih =>
    intro k n hk hn
    by_cases h16 : n < 16
    · simp [to_hex_go, h16, hk]
    · have hk2 : 2 ≤ k := by
        rcases k with _ | _ | k
        · omega
        · rw [pow_one] at hn; omega
        · omega
      have hdiv : n / 16 < 16 ^ (k - 1) := by
        have hpow : 16 ^ (k - 1) * 16 = 16 ^ k := by
          rw [← pow_succ]
          congr 1
          omega
        exact Nat.div_lt_of_lt_mul (by omega)
      have := ih (k - 1) (n / 16) (by omega) hdiv
      simp only [to_hex_go, h16, if_false, List.length_append, List.length_cons,
        List.length_nil]
      omega

/-- Offsets below `2^32` render to at most 8 hex digits. -/
lemma to_hex_length_le (n : Nat) (h : n < 2 ^ 32) : (to_hex n).length ≤ 8 :=
  to_hex_go_length_le n 8 n (by omega) (by norm_num at h ⊢; omega)

/-- Offsets below `2^32` give an offset field of exactly 8 characters. -/
lemma format_offset_length (n : Nat) (h : n < 2 ^ 32) : (format_offset n).length = 8 := by
  have := to_hex_length_le n h
  simp only [format_offset, List.length_append, List.length_replicate]
  omega

/-- The sixteen characters Rust's `{:x}` can emit. -/
def lower_hex_digits : List Char := "0123456789abcdef".toList

/-- Each hex digit of `to_hex` is a lowercase hexadecimal digit. -/
lemma hex_digit_mem (m : Nat) (h : m < 16) :
    Nat.digitChar m ∈
      lower_hex_digits := by
  revert h
  revert m
  decide

/-- Every character of a `to_hex_go` rendering is a lowercase hex digit. -/
lemma to_hex_go_chars :
    ∀ (fuel n : Nat), ∀ c ∈ to_hex_go fuel n,
      c ∈ lower_hex_digits := by
  intro fuel
  induction fuel with
  | zero =>
    intro n c hc
    simp only [to_hex_go, List.mem_singleton] at hc
    exact hc ▸ hex_digit_mem _ (Nat.mod_lt _ (by omega))
  | succ f ih =>
    intro n c hc
    by_cases h16 : n < 16
    · simp only [to_hex_go, h16, if_true, List.mem_singleton] at hc
      exact hc ▸ hex_digit_mem _ h16
    · simp only [to_hex_go, h16, if_false, List.mem_append, List.mem_singleton] at hc
      rcases hc with hc | hc
      · exact ih _ c hc
      · exact hc ▸ hex_digit_mem _ (Nat.mod_lt _ (by omega))

/-- Each byte renders to exactly two hex characters, so a group of `c` bytes
renders to `2 * c.length` characters. -/
lemma group_hex_length (c : List Nat) : (group_hex c).length = 2 * c.length := by
  induction c with
  | nil => rfl
  | cons a t ih =>
    simp only [group_hex, List.map_cons, List.flatten_cons, List.length_append,
      List.length_cons] at ih ⊢
    simp only [byte_hex, List.length_cons, List.length_nil]
    omega

/-- Length of a space-padded field whose content fits. -/
lemma pad_right_length (width : Nat) (s : List Char) (h : s.length ≤ width) :
    (pad_right width s).length = width := by
  simp only [pad_right, List.length_append, List.length_replicate]
  omega

/-- Joining a nonempty list of strings costs at most head, separator and the
joined tail. -/
lemma join_sep_cons_le (sep x : List Char) (l : List (List Char)) :
    (join_sep sep (x :: l)).length ≤ x.length + sep.length + (join_sep sep l).length := by
  cases l with
  | nil => simp [join_sep]
  | cons y t => simp [join_sep]; omega

/-- The padding formula, rewritten without the outer subtraction: room for
`2 * line_width` digit characters plus one separating space per full group
boundary. -/
lemma get_line_hex_pad_length_eq (d : Dumper) (hw : 1 ≤ d.line_width)
    (hg : 1 ≤ d.byte_group_length) :
    get_line_hex_pad_length d =
      2 * d.line_width + (d.line_width - 1) / d.byte_group_length := by
  show ((2 * d.byte_group_length + 1) * d.line_width - 1) / d.byte_group_length = _
  have h1 : (2 * d.byte_group_length + 1) * d.line_width - 1 =
      d.byte_group_length * (2 * d.line_width) + (d.line_width - 1) := by
    have : (2 * d.byte_group_length + 1) * d.line_width =
        d.byte_group_length * (2 * d.line_width) + d.line_width := by ring
    omega
  rw [h1, Nat.mul_add_div (by omega)]

/-- Rendered length of the (unpadded) hex column is at most
`2 * L + (L - 1) / g` for a chunk of `L` bytes and group length `g ≥ 1`. -/
lemma line_hex_go_le (g : Nat) (hg : 1 ≤ g) :
    ∀ (fuel : Nat) (bytes : List Nat),
      (join_sep [' '] ((byte_chunks_go g fuel bytes).map group_hex)).length ≤
        2 * bytes.length + (bytes.length - 1) / g := by
  intro fuel
  induction fuel with
  | zero => intro bytes; simp [byte_chunks_go, join_sep]
  | succ f ih =>
    intro bytes
    cases bytes with
    | nil => simp [byte_chunks_go, join_sep]
    | cons a rest =>
      simp only [byte_chunks_go, List.map_cons]
      by_cases hR : rest.length < g
      · have hdrop : rest.drop (g - 1) = [] := by
          apply List.eq_nil_of_length_eq_zero
          simp only [List.length_drop]
          omega
        have hnil : byte_chunks_go g f (rest.drop (g - 1)) = [] := by
          rw [hdrop]; cases f <;> rfl
        rw [hnil]
        simp only [List.map_nil, join_sep, group_hex_length, List.length_cons,
          List.length_take]
        have h2 : 2 * (min (g - 1) rest.length + 1) ≤ 2 * (rest.length + 1) := by
          omega
        exact le_trans h2 (Nat.le_add_right _ _)
      · push_neg at hR
        have hbound := join_sep_cons_le [' '] (group_hex (a :: rest.take (g - 1)))
          ((byte_chunks_go g f (rest.drop (g - 1))).map group_hex)
        have htail := ih (rest.drop (g - 1))
        have hlen : (rest.drop (g - 1)).length = rest.length - (g - 1) := by
          simp [List.length_drop]
        rw [hlen] at htail
        have harg : rest.length - (g - 1) - 1 = rest.length - g := by omega
        rw [harg] at htail
        have hhead : (group_hex (a :: rest.take (g - 1))).length = 2 * g := by
          rw [group_hex_length]
          simp only [List.length_cons, List.length_take]
          omega
        rw [hhead] at hbound
        have hdiv : rest.length / g = (rest.length - g) / g + 1 :=
          Nat.div_eq_sub_div (by omega) hR
        simp only [List.length_cons, Nat.add_sub_cancel]
        rw [hdiv]
        generalize (rest.length - g) / g = q at htail ⊢
        simp only [List.length_singleton] at hbound
        omega

/-- Rendered length of the joined offset legend starting at label `i` is at
most `2 + (2 * g + 1) * ((w - 1 - i) / g)`: two characters for the first
label plus separator-and-label blocks for the rest. -/
lemma range_step_join_le (g w : Nat) (hg : 1 ≤ g) :
    ∀ (fuel i : Nat), i < w →
      (join_sep (List.replicate (g * 2 - 1) ' ')
          ((range_step_go g w fuel i).map byte_hex)).length ≤
        2 + (2 * g + 1) * ((w - 1 - i) / g) := by
  intro fuel
  induction fuel with
  | zero => intro i hi; simp [range_step_go, join_sep]
  | succ f ih =>
    intro i hi
    simp only [range_step_go, hi, if_true, List.map_cons]
    by_cases hig : i + g < w
    · have hbound := join_sep_cons_le (List.replicate (g * 2 - 1) ' ') (byte_hex i)
        ((range_step_go g w f (i + g)).map byte_hex)
      have htail := ih (i + g) hig
      have harg : w - 1 - (i + g) = w - 1 - i - g := by omega
      rw [harg] at htail
      have hdiv : (w - 1 - i) / g = (w - 1 - i - g) / g + 1 :=
        Nat.div_eq_sub_div (by omega) (by omega)
      rw [hdiv]
      have hms : (2 * g + 1) * ((w - 1 - i - g) / g + 1) =
          (2 * g + 1) * ((w - 1 - i - g) / g) + (2 * g + 1) := Nat.mul_succ _ _
      rw [hms]
      have hbl : (byte_hex i).length = 2 := rfl
      have hsl : (List.replicate (g * 2 - 1) (' ' : Char)).length = g * 2 - 1 :=
        List.length_replicate _ _
      rw [hbl, hsl] at hbound
      generalize (2 * g + 1) * ((w - 1 - i - g) / g) = q at htail ⊢
      omega
    · have hnil : range_step_go g w f (i + g) = [] := by
        cases f with
        | zero => rfl
        | succ f' => simp [range_step_go, hig]
      rw [hnil]
      simp only [List.map_nil, join_sep]
      have hbl : (byte_hex i).length = 2 := rfl
      rw [hbl]
      exact Nat.le_add_right 2 _

/-- The offset legend of the header fits inside the padded hex field. -/
lemma byte_offsets_le_pad (d : Dumper) (hw : 1 ≤ d.line_width)
    (hg : 1 ≤ d.byte_group_length) :
    (byte_offsets d).length ≤ get_line_hex_pad_length d := by
  have h1 := range_step_join_le d.byte_group_length d.line_width hg d.line_width 0
    (by omega)
  rw [Nat.sub_zero] at h1
  have h2 := get_line_hex_pad_length_eq d hw hg
  have h3 : d.byte_group_length * ((d.line_width - 1) / d.byte_group_length) ≤
      d.line_width - 1 := by
    calc d.byte_group_length * ((d.line_width - 1) / d.byte_group_length)
        = (d.line_width - 1) / d.byte_group_length * d.byte_group_length :=
          Nat.mul_comm _ _
      _ ≤ d.line_width - 1 := Nat.div_mul_le_self _ _
  have hmul : (2 * d.byte_group_length + 1) * ((d.line_width - 1) / d.byte_group_length)
      = 2 * (d.byte_group_length * ((d.line_width - 1) / d.byte_group_length))
        + (d.line_width - 1) / d.byte_group_length := by ring
  have h5 : (byte_offsets d).length ≤
      2 + (2 * (d.byte_group_length * ((d.line_width - 1) / d.byte_group_length))
        + (d.line_width - 1) / d.byte_group_length) := by
    unfold byte_offsets range_step
    rw [← hmul]
    exact h1
  have h6 : 2 * (d.byte_group_length * ((d.line_width - 1) / d.byte_group_length)) ≤
      2 * (d.line_width - 1) := by omega
  rw [h2]
  omega

/-- The hex column of any chunk no longer than the configured line width
fits inside the padded field. -/
lemma line_hex_le_pad (d : Dumper) (hw : 1 ≤ d.line_width) (hg : 1 ≤ d.byte_group_length)
    (bytes : List Nat) (hb : bytes.length ≤ d.line_width) :
    (line_hex d bytes).length ≤ get_line_hex_pad_length d := by
  have h1 := line_hex_go_le d.byte_group_length hg bytes.length bytes
  have h2 := get_line_hex_pad_length_eq d hw hg
  have h3 : (bytes.length - 1) / d.byte_group_length ≤
      (d.line_width - 1) / d.byte_group_length :=
    Nat.div_le_div_right (by omega)
  unfold line_hex byte_chunks
  omega

/-! Claim theorems. -/

/-- C1 (counterexample): the claim says that with a line-count cap `N` set,
no read request is ever issued for bytes at offset `N * line_width` or
beyond ("the (N+1)th chunk is never read, not read-then-discarded").  The
source issues the read BEFORE testing the cap (line 96 precedes lines
101-105), so with `line_count = Some(1)` on a 32-byte source the loop
issues a read at stream offset `16 = 1 * line_width` — the second chunk —
and only then stops. -/
theorem c1_no_overread_counterexample :
    (Dumper.new.set_line_count (some 1)).line_count = some 1 ∧
    1 * (Dumper.new.set_line_count (some 1)).line_width ∈
      read_offsets (Dumper.new.set_line_count (some 1)) (List.replicate 32 0) := by
  constructor
  · rfl
  · decide

/-- C1 (amended): with a line-count cap `N` set, every read request the
loop issues starts at a stream offset of at most `N * line_width`: the loop
may read the (N+1)th chunk once (at offset exactly `N * line_width`), but
discards it, emits no line for it, and never requests bytes past that
chunk. -/
theorem c1_read_offsets_bounded (d : Dumper) (N : Nat)
    (hlc : d.line_count = some N) (src : List Nat) :
    ∀ r ∈ read_offsets d src, r ≤ N * d.line_width := by
  intro r hr
  refine read_offsets_go_le d N hlc (src.length + 1) 0 0 src (by simp) (by simp) r ?_
  rw [Nat.zero_mul]
  exact hr

/-- C1 (witness): concrete instance of the amended bound at `N = 2`,
`line_width = 16`: the read issued at offset 16 is within the bound 32. -/
theorem c1_read_offsets_bounded_witness :
    (16 : Nat) ≤ 2 * (Dumper.new.set_line_count (some 2)).line_width :=
  c1_read_offsets_bounded (Dumper.new.set_line_count (some 2)) 2 rfl
    (List.replicate 40 0) 16 (by decide)

/-- C2: for every valid configuration and every chunk of 1 to `line_width`
bytes, the rendered hex field has width exactly
`((2 * byte_group_length + 1) * line_width - 1) / byte_group_length`; in
particular a short final chunk is space-padded to that same width. -/
theorem c2_hex_field_width (d : Dumper) (bytes : List Nat)
    (hw1 : 1 ≤ d.line_width) (_hw2 : d.line_width ≤ 256)
    (hg1 : 1 ≤ d.byte_group_length) (_hg2 : d.byte_group_length ≤ 256)
    (_hb1 : 1 ≤ bytes.length) (hb2 : bytes.length ≤ d.line_width) :
    (line_hex_field d bytes).length =
      ((2 * d.byte_group_length + 1) * d.line_width - 1) / d.byte_group_length := by
  have h1 := line_hex_le_pad d hw1 hg1 bytes hb2
  have h2 := pad_right_length (get_line_hex_pad_length d) (line_hex d bytes) h1
  unfold line_hex_field
  rw [h2]
  rfl

/-- C2 (witness): the hex field of a one-byte chunk under the default
configuration is rendered 47 characters wide, the padded field width. -/
theorem c2_hex_field_width_witness :
    (line_hex_field Dumper.new [0x41]).length =
      ((2 * Dumper.new.byte_group_length + 1) * Dumper.new.line_width - 1) /
        Dumper.new.byte_group_length :=
  c2_hex_field_width Dumper.new [0x41] (by decide) (by decide) (by decide) (by decide)
    (by decide) (by decide)

/-- C3: the chunks the read loop emits lines for carry offsets
`0, line_width, 2 * line_width, ...` (the `i`-th chunk sits at offset
`i * line_width` and is exactly the corresponding slice of the source, so
offsets ascend by `line_width` with no gaps); every chunk except possibly
the last holds exactly `line_width` bytes; and `format_contents` emits
exactly one formatted line per chunk, in chunk order. -/
theorem c3_chunk_sequence (d : Dumper) (src : List Nat) :
    (∀ (i : Nat) (p : Nat × List Nat), (chunks d src).get? i = some p →
      p.1 = i * d.line_width ∧
      p.2 = (src.drop (i * d.line_width)).take d.line_width) ∧
    (∀ (i : Nat) (p : Nat × List Nat), i + 1 < (chunks d src).length →
      (chunks d src).get? i = some p → p.2.length = d.line_width) ∧
    format_contents d src = (chunks d src).map (fun p => format_line d p.1 p.2) := by
  refine ⟨?_, ?_, ?_⟩
  · intro i p hp
    have := chunks_go_get? d (src.length + 1) 0 src i p hp
    simpa using this
  · intro i p hlen hp
    exact chunks_go_full d (src.length + 1) 0 src i p hlen hp
  · exact format_contents_go_eq_map d (src.length + 1) 0 src

/-- C3 (witness): on a 20-byte source under the default configuration the
second chunk sits at offset `1 * 16` and is the 4-byte tail slice. -/
theorem c3_chunk_sequence_witness :
    ((16, List.replicate 4 7) : Nat × List Nat).1 = 1 * Dumper.new.line_width ∧
    ((16, List.replicate 4 7) : Nat × List Nat).2 =
      ((List.replicate 20 7).drop (1 * Dumper.new.line_width)).take
        Dumper.new.line_width :=
  (c3_chunk_sequence Dumper.new (List.replicate 20 7)).1 1 (16, List.replicate 4 7)
    (by decide)

/-- C4: with `line_count = 0` the output is exactly the two header lines
and no data lines; with `line_count = N` at most `N` data lines appear, and
a source longer than `N * line_width` bytes yields exactly `N` data
lines. -/
theorem c4_line_count_cap (d : Dumper) (src : List Nat) :
    (d.line_count = some 0 → dump d src = [byte_offsets_line d, separator_line d]) ∧
    (∀ N, d.line_count = some N → (format_contents d src).length ≤ N) ∧
    (∀ N, d.line_count = some N → 1 ≤ d.line_width →
      N * d.line_width < src.length → (format_contents d src).length = N) := by
  refine ⟨?_, ?_, ?_⟩
  · intro hlc
    unfold dump
    rw [format_contents_zero_cap d hlc src]
  · intro N hlc
    have := format_contents_go_length_le d N hlc (src.length + 1) 0 src
    simpa [format_contents] using this
  · intro N hlc hw hlong
    have := format_contents_go_length_eq d N hlc hw (src.length + 1) 0 src
      (by omega) (by omega) (by simpa using hlong)
    simpa [format_contents] using this

/-- C4 (witness): a 40-byte source with `line_count = Some(2)` yields
exactly two data lines. -/
theorem c4_line_count_cap_witness :
    (format_contents (Dumper.new.set_line_count (some 2))
      (List.replicate 40 9)).length = 2 :=
  (c4_line_count_cap (Dumper.new.set_line_count (some 2)) (List.replicate 40 9)).2.2
    2 rfl (by decide) (by decide)

/-- C5: the per-byte ASCII-field mapping of the code agrees, for every
configuration and every byte, with the mapping as the spec words it: bytes
below 0x20 map to the Control Pictures glyph at `byte + 0x2400` when the
mode is on and to `.` when it is off; bytes in `[0x20, 0x7F)` map to their
own character; bytes at or above 0x7F map to `.`. -/
theorem c5_ascii_mapping (d : Dumper) (b : Nat) :
    byte_ascii d b = spec_ascii_char d.control_pictures b := by
  by_cases hb : b < 0x20
  · cases hcp : d.control_pictures with
    | true =>
      have hv := control_picture_valid b hb
      simp [byte_ascii, spec_ascii_char, hb, hcp, char_from_u32, hv]
    | false =>
      simp [byte_ascii, spec_ascii_char, hb, hcp]
  · by_cases hb2 : b < 0x7f
    · simp [byte_ascii, spec_ascii_char, hb, hb2]
    · simp [byte_ascii, spec_ascii_char, hb, hb2]

/-- C6 (counterexample): the claim says an out-of-range value fails with an
error identifying the out-of-range value.  The code's rejection is a
constant message per setter, so supplying 0 and supplying 257 produce
literally identical results — the error cannot identify which out-of-range
value was passed. -/
theorem c6_invalid_config_counterexample :
    Dumper.new.set_line_width 0 = Dumper.new.set_line_width 257 ∧
    Dumper.new.set_byte_group_length 0 = Dumper.new.set_byte_group_length 257 := by
  constructor <;> rfl

/-- C6 (amended): setting `line_width` (or `byte_group_length`) to `v` with
`v = 0` or `v > 256` fails at configuration time with an error naming the
out-of-range setting and its valid range (the message does not contain the
supplied value); for `v` in `[1, 256]` the setter succeeds and returns the
updated configuration. -/
theorem c6_config_validation (d : Dumper) (v : Nat) :
    ((v = 0 ∨ 256 < v) →
      d.set_line_width v = Except.error "line width must be in the range 1-256" ∧
      d.set_byte_group_length v =
        Except.error "byte group length must be in the range 1-256") ∧
    (1 ≤ v → v ≤ 256 →
      d.set_line_width v = Except.ok { d with line_width := v } ∧
      d.set_byte_group_length v = Except.ok { d with byte_group_length := v }) := by
  constructor
  · intro hv
    constructor
    · unfold Dumper.set_line_width
      rw [if_pos hv]
    · unfold Dumper.set_byte_group_length
      rw [if_pos hv]
  · intro h1 h2
    constructor
    · unfold Dumper.set_line_width
      rw [if_neg (by omega)]
    · unfold Dumper.set_byte_group_length
      rw [if_neg (by omega)]

/-- C6 (witness): the rejection at 0 and the acceptance at 16 for the line
width setter. -/
theorem c6_config_validation_witness :
    Dumper.new.set_line_width 0 =
      Except.error "line width must be in the range 1-256" ∧
    Dumper.new.set_line_width 16 = Except.ok { Dumper.new with line_width := 16 } :=
  ⟨((c6_config_validation Dumper.new 0).1 (Or.inl rfl)).1,
   ((c6_config_validation Dumper.new 16).2 (by omega) (by omega)).1⟩

/-- C7 (counterexample): the claim says lines already emitted before a
failing read remain visible.  `dump` buffers every line and prints only
after the loop finishes, and the `unwrap` panic aborts `format_contents`
before it returns, so after one successfully read and formatted chunk a
read failure leaves the caller with the bare error and NO lines — the
already-formatted line for chunk 0 is discarded, not visible. -/
theorem c7_partial_output_counterexample :
    format_contents_r Dumper.new 0
      [ReadResult.bytes (List.replicate 16 255), ReadResult.fail] =
      Except.error () := rfl

/-- C7 (amended): a read failure is fatal and not retried — the loop
terminates at the failing chunk with the failure surfaced (as a panic) to
the caller, independently of anything later in the stream — but no partial
output survives: because printing happens only after the loop, an error
anywhere makes the whole call return only the error, discarding every line
formatted before it. -/
theorem c7_read_failure (d : Dumper) (chunk_offset : Nat) (b : List Nat)
    (rest rest' : List ReadResult) :
    format_contents_r d chunk_offset (ReadResult.fail :: rest) = Except.error () ∧
    format_contents_r d chunk_offset (ReadResult.fail :: rest) =
      format_contents_r d chunk_offset (ReadResult.fail :: rest') ∧
    (¬ (b.take d.line_width).length = 0 →
      cap_reached d chunk_offset = false →
      format_contents_r d (chunk_offset + d.line_width) rest = Except.error () →
      format_contents_r d chunk_offset (ReadResult.bytes b :: rest) =
        Except.error ()) := by
  refine ⟨rfl, rfl, ?_⟩
  intro hl hcap herr
  simp only [format_contents_r, hl, hcap, herr]
  simp

/-- C7 (witness): a failing second read after a full first chunk yields the
bare error. -/
theorem c7_read_failure_witness :
    format_contents_r Dumper.new 0
      [ReadResult.bytes (List.replicate 16 1), ReadResult.fail] =
      Except.error () :=
  (c7_read_failure Dumper.new 0 (List.replicate 16 1) [ReadResult.fail] []).2.2
    (by decide) (by decide) rfl

/-- C8 (counterexample): the claim says every full data line has the same
total rendered width as the header lines, but a full data line whose chunk
offset is `2^32` or more renders a 9-character offset field and is wider
than the header. -/
theorem c8_header_width_counterexample :
    (format_line Dumper.new 4294967296 (List.replicate 16 0)).length ≠
      (byte_offsets_line Dumper.new).length := by decide

/-- C8 (amended): for every valid configuration and every full data line
whose chunk offset is below `2^32`, the two header lines and the data line
all have total rendered width `hex_pad_length + line_width + 14`; the
legend's labels fit inside the padded hex field; and all three lines factor
into a 9-character offset column, a `pad + 2`-character hex column and a
`line_width + 1`-character ASCII column around junction characters at the
same two positions. -/
theorem c8_header_alignment (d : Dumper) (chunk_offset : Nat) (bytes : List Nat)
    (hw1 : 1 ≤ d.line_width) (_hw2 : d.line_width ≤ 256)
    (hg1 : 1 ≤ d.byte_group_length) (_hg2 : d.byte_group_length ≤ 256)
    (hoff : chunk_offset < 2 ^ 32) (hlen : bytes.length = d.line_width) :
    (byte_offsets d).length ≤ get_line_hex_pad_length d ∧
    (byte_offsets_line d).length = get_line_hex_pad_length d + d.line_width + 14 ∧
    (separator_line d).length = get_line_hex_pad_length d + d.line_width + 14 ∧
    (format_line d chunk_offset bytes).length =
      get_line_hex_pad_length d + d.line_width + 14 ∧
    (∃ A B C, byte_offsets_line d = A ++ '|' :: B ++ '|' :: C ∧
      A.length = 9 ∧ B.length = get_line_hex_pad_length d + 2 ∧
      C.length = d.line_width + 1) ∧
    (∃ A B C, separator_line d = A ++ '+' :: B ++ '+' :: C ∧
      A.length = 9 ∧ B.length = get_line_hex_pad_length d + 2 ∧
      C.length = d.line_width + 1) ∧
    (∃ A B C, format_line d chunk_offset bytes = A ++ '|' :: B ++ '|' :: C ∧
      A.length = 9 ∧ B.length = get_line_hex_pad_length d + 2 ∧
      C.length = d.line_width + 1) := by
  have hbo := byte_offsets_le_pad d hw1 hg1
  have hboF := pad_right_length _ _ hbo
  have hlf := line_hex_le_pad d hw1 hg1 bytes (by omega)
  have hlfF := pad_right_length _ _ hlf
  have hoffL := format_offset_length chunk_offset hoff
  have hasc : (line_ascii d bytes).length = d.line_width := by
    simp [line_ascii, hlen]
  refine ⟨hbo, ?_, ?_, ?_, ?_, ?_, ?_⟩
  · simp only [byte_offsets_line, List.length_append, List.length_replicate,
      List.length_cons, List.length_nil]
    rw [hboF]
    omega
  · simp only [separator_line, List.length_append, List.length_replicate,
      List.length_cons, List.length_nil]
    omega
  · simp only [format_line, line_hex_field, List.length_append, List.length_cons,
      List.length_nil]
    rw [hlfF, hoffL, hasc]
    omega
  · refine ⟨List.replicate 9 ' ',
      ' ' :: (pad_right (get_line_hex_pad_length d) (byte_offsets d) ++ [' ']),
      ' ' :: List.replicate d.line_width ' ', ?_, ?_, ?_, ?_⟩
    · simp [byte_offsets_line, List.append_assoc]
    · simp
    · simp only [List.length_cons, List.length_append, List.length_nil]
      rw [hboF]
    · simp
  · refine ⟨List.replicate 9 '-',
      '-' :: (List.replicate (get_line_hex_pad_length d) '-' ++ ['-']),
      '-' :: List.replicate d.line_width '-', ?_, ?_, ?_, ?_⟩
    · simp [separator_line, List.append_assoc]
    · simp
    · simp
    · simp
  · refine ⟨format_offset chunk_offset ++ [' '],
      ' ' :: (line_hex_field d bytes ++ [' ']),
      ' ' :: line_ascii d bytes, ?_, ?_, ?_, ?_⟩
    · simp [format_line, List.append_assoc]
    · simp [hoffL]
    · simp only [List.length_cons, List.length_append, List.length_nil,
        line_hex_field]
      rw [hlfF]
    · simp [hasc]

/-- C8 (witness): under the default configuration at offset 0 with a full
16-byte chunk, the header line is `47 + 16 + 14` characters wide. -/
theorem c8_header_alignment_witness :
    (byte_offsets_line Dumper.new).length =
      get_line_hex_pad_length Dumper.new + Dumper.new.line_width + 14 :=
  (c8_header_alignment Dumper.new 0 (List.replicate 16 0) (by decide) (by decide)
    (by decide) (by decide) (by decide) (by decide)).2.1

/-- C9 (counterexample): the claim says the offset field is exactly 8
characters wide for every chunk offset; Rust's `{:08x}` zero-pads to a
MINIMUM of 8, so the chunk offset `2^32` renders 9 characters. -/
theorem c9_offset_field_counterexample : (format_offset 4294967296).length = 9 := by
  decide

/-- C9 (amended): for every chunk offset below `2^32` the offset field is
the offset in lowercase hexadecimal, zero-padded on the left to exactly 8
characters, and it is the leading field of the formatted line. -/
theorem c9_offset_field (d : Dumper) (chunk_offset : Nat) (bytes : List Nat)
    (hoff : chunk_offset < 2 ^ 32) :
    (format_offset chunk_offset).length = 8 ∧
    (∀ c ∈ to_hex chunk_offset,
      c ∈ lower_hex_digits) ∧
    format_offset chunk_offset =
      List.replicate (8 - (to_hex chunk_offset).length) '0' ++ to_hex chunk_offset ∧
    (∃ rest, format_line d chunk_offset bytes = format_offset chunk_offset ++ rest) := by
  refine ⟨format_offset_length _ hoff, to_hex_go_chars chunk_offset chunk_offset,
    rfl, ?_⟩
  refine ⟨[' ', '|', ' '] ++ line_hex_field d bytes ++ [' ', '|', ' ']
    ++ line_ascii d bytes, ?_⟩
  simp [format_line, List.append_assoc]

/-- C9 (witness): the offset field at chunk offset 0x123 is 8 characters. -/
theorem c9_offset_field_witness : (format_offset 291).length = 8 :=
  (c9_offset_field Dumper.new 291 [] (by decide)).1

/-- C10: for every byte below 0x20 the shifted codepoint `byte + 0x2400` is
a valid Unicode scalar value, so the `char::from_u32(...).unwrap()` in the
control-pictures branch never fails: the conversion returns `some` under
the guard. -/
theorem c10_control_pictures_valid (b : Nat) (h : b < 0x20) :
    char_from_u32 (b + 0x2400) = some (Char.ofNat (b + 0x2400)) ∧
    (char_from_u32 (b + 0x2400)).isSome = true := by
  have hv := control_picture_valid b h
  constructor
  · simp [char_from_u32, hv]
  · simp [char_from_u32, hv]

/-- C10 (witness): the conversion succeeds for the byte 0. -/
theorem c10_control_pictures_valid_witness :
    char_from_u32 (0 + 0x2400) = some (Char.ofNat (0 + 0x2400)) :=
  (c10_control_pictures_valid 0 (by decide)).1
